import Mathlib

/-!
Verification of the nexcrawl HTML core (tree model, minimum-subtree
extractor, selector engine, preprocessor) against its specification.

The Rust sources are shallowly embedded:

* `Node`/`NodeData` mirror `node.rs`: a node owns an ordered list of child
  nodes and carries a weak parent back-reference.  `Rc` identity is modelled
  by an explicit `id : Nat` field (fresh allocations receive fresh ids), and
  the weak parent pointer by `parent : Option Nat`.
* `PartialEq`/`Hash` for `Node` delegate to the node's *data* only, ignoring
  identity and children; `dataEq` models exactly that relation (for elements
  it compares the template-contents handle by the data of the referenced
  node, as `Option<Rc<Node>>` equality does).
* The extractor's `RefCell<HashMap<Handle, String>>` memo cache is modelled
  by an association list keyed by node data and threaded through the
  functions in state-passing style.
* `get_selector` mutates parent cells (`Cell::take`), so it is embedded over
  an explicit heap (`SHeap`) of id-addressed nodes.
* Rust's `str::replace` / the whitespace-collapsing `while` loop are embedded
  with an explicit fuel argument equal to the string length, which always
  suffices because every iteration consumes at least one character.
-/

set_option autoImplicit false

/-! ## String utilities (Rust `str::split_whitespace`, `trim`, `replace`) -/

/-- Unicode white-space characters recognised by Rust's `char::is_whitespace`
(the code points relevant to this code base). -/
def isWs (c : Char) : Bool :=
  c = ' ' || c = '\t' || c = '\n' || c = '\r' || c = '\x0b' || c = '\x0c' ||
  c = '\u0085' || c = ' ' || c = ' ' ||
  (' ' ≤ c && c ≤ ' ') ||
  c = ' ' || c = ' ' || c = ' ' || c = ' ' || c = '　'

/-- Accumulator-based whitespace tokenizer: `str::split_whitespace` (maximal
runs of non-whitespace characters, empty tokens skipped). -/
def tokenizeAux : List Char → List Char → List String
  | [], acc => if acc = [] then [] else [String.mk acc.reverse]
  | c :: cs, acc =>
    if isWs c then
      if acc = [] then tokenizeAux cs []
      else String.mk acc.reverse :: tokenizeAux cs []
    else tokenizeAux cs (c :: acc)

/-- Whitespace tokens of a string, in order. -/
def tokens (s : String) : List String := tokenizeAux s.data []

/-- Rust `str::trim`: strip leading and trailing whitespace. -/
def trimRust (cs : List Char) : List Char :=
  ((cs.dropWhile (isWs ·)).reverse.dropWhile (isWs ·)).reverse

/-- Does `pat` occur at the head of the list? -/
def prefixTest : List Char → List Char → Bool
  | [], _ => true
  | _ :: _, [] => false
  | p :: ps, c :: cs => p = c && prefixTest ps cs

/-- Does `pat` occur anywhere in the list (Rust `str::contains`)? -/
def containsSub : List Char → List Char → Bool
  | [], pat => pat = []
  | c :: cs, pat => prefixTest pat (c :: cs) || containsSub cs pat

/-- Rust `str::replace` with a non-empty pattern (non-overlapping,
left-to-right).  Fuel equal to the string length always suffices because
every step consumes at least one character. -/
def replaceSubGo : Nat → List Char → List Char → List Char → List Char
  | 0, s, _, _ => s
  | _, [], _, _ => []
  | fuel + 1, c :: cs, pat, rep =>
    if pat ≠ [] ∧ prefixTest pat (c :: cs) then
      rep ++ replaceSubGo fuel ((c :: cs).drop pat.length) pat rep
    else c :: replaceSubGo fuel cs pat rep

def replaceSub (s pat rep : List Char) : List Char :=
  replaceSubGo s.length s pat rep

/-- The `while result.contains("  ")` loop of `preprocess_text`: repeatedly
replace double spaces by single spaces.  Every pass strictly shortens the
string, so fuel equal to the length suffices. -/
def dedupeGo : Nat → List Char → List Char
  | 0, s => s
  | fuel + 1, s =>
    if containsSub s [' ', ' '] then dedupeGo fuel (replaceSub s [' ', ' '] [' '])
    else s

/-! ## Tree/Node model (`node.rs`) -/

/-- `html5ever::QualName`, restricted to the fields this code reads
(namespace and local name). -/
structure QualName where
  ns : String
  loc : String
deriving DecidableEq

/-- `html5ever::Attribute`. -/
structure Attr where
  name : QualName
  value : String
deriving DecidableEq

mutual
/-- `NodeData` from `node.rs`.  `templateContents` holds the shared handle of
a template element's contents document (an `Option<Handle>` in Rust). -/
inductive NodeData where
  | document : NodeData
  | doctype (name publicId systemId : String) : NodeData
  | text (content : String) : NodeData
  | comment (content : String) : NodeData
  | element (name : QualName) (attrs : List Attr) (templateContents : Option Node)
      (mathmlIntegrationPoint : Bool) : NodeData
  | processingInstruction (target pidata : String) : NodeData

/-- A DOM node: `Rc` identity is modelled by `id`, the weak parent pointer by
`parent`, and the owned child sequence by `children`. -/
inductive Node where
  | mk (id : Nat) (parent : Option Nat) (data : NodeData) (children : List Node)
end

def Node.idOf : Node → Nat
  | .mk i _ _ _ => i

def Node.parentOf : Node → Option Nat
  | .mk _ p _ _ => p

def Node.dataOf : Node → NodeData
  | .mk _ _ d _ => d

def Node.childrenOf : Node → List Node
  | .mk _ _ _ cs => cs

/-- Overwrite the parent back-reference of a node (`Cell::set`). -/
def setParentTop (n : Node) (p : Option Nat) : Node :=
  match n with
  | .mk i _ d cs => .mk i p d cs

mutual
/-- `PartialEq for NodeData`: structural equality of the tagged union.  For
elements the template-contents handles are compared as `Option<Handle>`,
which in turn compares the referenced nodes with `PartialEq for Node`. -/
def dataEq : NodeData → NodeData → Bool
  | .document, .document => true
  | .doctype n p s, .doctype n' p' s' => n = n' && p = p' && s = s'
  | .text t, .text t' => t = t'
  | .comment c, .comment c' => c = c'
  | .element n a tc m, .element n' a' tc' m' =>
      n = n' && a = a' && tcEq tc tc' && m = m'
  | .processingInstruction t d, .processingInstruction t' d' => t = t' && d = d'
  | _, _ => false

/-- `Option<Handle>` equality. -/
def tcEq : Option Node → Option Node → Bool
  | none, none => true
  | some n, some n' => nodeEq n n'
  | _, _ => false

/-- `PartialEq for Node`: compares the data only, ignoring identity and
children. -/
def nodeEq : Node → Node → Bool
  | .mk _ _ d _, .mk _ _ d' _ => dataEq d d'
end

mutual
/-- The recursive (memo-free) text of a node: the verbatim buffer for a text
node, the space-join of the children's texts otherwise.  This is the "full
text" of the tree in the sense of the specification. -/
def fullText : Node → String
  | .mk _ _ (.text t) _ => t
  | .mk _ _ _ cs => String.intercalate " " (fullTextList cs)

def fullTextList : List Node → List String
  | [] => []
  | c :: cs => fullText c :: fullTextList cs
end

/-! ## Minimum-subtree extractor (`minimum_dom_tree.rs`)

The `RefCell<HashMap<Handle, String>>` cache is threaded explicitly.  Since
`Hash`/`Eq` for `Handle = Rc<Node>` delegate to the node's data, the map is
keyed by `NodeData` up to `dataEq`. -/

abbrev Cache := List (NodeData × String)

def cacheGet (c : Cache) (n : Node) : Option String :=
  (c.find? (fun p => dataEq p.1 n.dataOf)).map (·.2)

def cacheInsert (c : Cache) (n : Node) (s : String) : Cache :=
  if c.any (fun p => dataEq p.1 n.dataOf) then
    c.map (fun p => if dataEq p.1 n.dataOf then (p.1, s) else p)
  else (n.dataOf, s) :: c

mutual
/-- `MinimumDomTree::get_text`: check the cache; a text node returns its
buffer (uncached); any other node joins its children's texts with a single
space and caches the result. -/
def get_text (c : Cache) (n : Node) : String × Cache :=
  match cacheGet c n with
  | some t => (t, c)
  | none =>
    match n with
    | .mk _ _ (.text t) _ => (t, c)
    | .mk i p d cs =>
      let r := get_text_list c cs
      let joined := String.intercalate " " r.1
      (joined, cacheInsert r.2 (.mk i p d cs) joined)

def get_text_list (c : Cache) (ns : List Node) : List String × Cache :=
  match ns with
  | [] => ([], c)
  | x :: xs =>
    let r1 := get_text c x
    let r2 := get_text_list r1.2 xs
    (r1.1 :: r2.1, r2.2)
end

/-- The two-pointer loop of `MinimumDomTree::is_subset`: walk the second
token list, consuming the head of the first on a match; succeed when the
first list is exhausted. -/
def subsetLoop : List String → List String → Bool
  | [], _ => true
  | _ :: _, [] => false
  | a :: as_, b :: bs => if a = b then subsetLoop as_ bs else subsetLoop (a :: as_) bs

/-- `MinimumDomTree::is_subset(t1, t2)`: tokenize both strings on whitespace
and run the greedy two-pointer subsequence check. -/
def is_subset (t1 t2 : String) : Bool := subsetLoop (tokens t1) (tokens t2)

mutual
/-- `MinimumDomTree::minimum_dom_tree` (cache threaded).  `Vec::contains`
uses `PartialEq for Node`, i.e. `nodeEq` (data equality). -/
def minimum_dom_tree (c : Cache) (n : Node) (text : String) :
    Option (List Node) × Cache :=
  if text = "" then (none, c)
  else
    let r := get_text c n
    let node_text := r.1
    let c1 := r.2
    let text_subset_of_node := is_subset text node_text
    let node_subset_of_text := is_subset node_text text
    if !text_subset_of_node && !node_subset_of_text then (none, c1)
    else
      match n with
      | .mk i p d cs =>
        let r2 := mdtChildren c1 cs text
        let nodes := r2.1
        let c2 := r2.2
        if nodes.isEmpty then
          (if node_subset_of_text then some [Node.mk i p d cs] else none, c2)
        else
          let can_merge := cs.all (fun child => nodes.any (nodeEq · child))
          if can_merge then
            (some ((nodes.filter (fun e => !(cs.any (nodeEq · e)))) ++ [Node.mk i p d cs]), c2)
          else (some nodes, c2)

/-- The `for child in node.children` loop: recurse into each child in order,
concatenating any returned node lists (the shared cache is threaded). -/
def mdtChildren (c : Cache) (cs : List Node) (text : String) :
    List Node × Cache :=
  match cs with
  | [] => ([], c)
  | x :: xs =>
    let r1 := minimum_dom_tree c x text
    let r2 := mdtChildren r1.2 xs text
    (match r1.1 with | some l => l ++ r2.1 | none => r2.1, r2.2)
end

/-- `MinimumDomTree::build`: return `none` if the text is empty or its tokens
are not a subsequence of `get_text(tree)`; otherwise run the recursion and
clear the cache.  Note the early `return None` path does not clear the
cache. -/
def build (c : Cache) (tree : Node) (text : String) :
    Option (List Node) × Cache :=
  if text = "" then (none, c)
  else
    let r := get_text c tree
    if !is_subset text r.1 then (none, r.2)
    else
      let r2 := minimum_dom_tree r.2 tree text
      (r2.1, [])

/-! ## Deep copy (`Node::deep_copy`) and a mutation model

`deep_copy` allocates fresh nodes (modelled by a fresh-id counter) for the
node and its child descendants, clones the data — including the
template-contents `Option<Handle>`, which is an `Rc` clone, i.e. a *shared*
handle — clears the copy's parent and points each copied child's parent at
its new parent. -/

mutual
def deep_copy (n : Node) (ctr : Nat) : Node × Nat :=
  match n with
  | .mk _ _ d cs =>
    let r := deepCopyChildren cs (ctr + 1) ctr
    (.mk ctr none d r.1, r.2)

def deepCopyChildren (cs : List Node) (ctr : Nat) (pid : Nat) : List Node × Nat :=
  match cs with
  | [] => ([], ctr)
  | c :: rest =>
    let r1 := deep_copy c ctr
    let r2 := deepCopyChildren rest r1.2 pid
    (setParentTop r1.1 (some pid) :: r2.1, r2.2)
end

mutual
/-- Ids of a node and all its child descendants (template contents are a
separate tree reached through the data, not through `children`). -/
def childIds : Node → List Nat
  | .mk i _ _ cs => i :: childIdsList cs

def childIdsList : List Node → List Nat
  | [] => []
  | c :: cs => childIds c ++ childIdsList cs
end

mutual
/-- Erase ids and parent pointers at every level of the child tree (the
node data, including any template-contents handle, is kept verbatim).  Two
nodes with the same `stripIds` image are clones of each other. -/
def stripIds : Node → Node
  | .mk _ _ d cs => .mk 0 none d (stripList cs)

def stripList : List Node → List Node
  | [] => []
  | c :: cs => stripIds c :: stripList cs
end

/-- A mutation performed through a handle: overwrite the text buffer of a
text node or the attribute list of an element (the interior-mutable fields
of `NodeData`). -/
inductive Mutation where
  | setText (s : String)
  | setAttrs (a : List Attr)

mutual
/-- Apply a mutation through the handle with id `k`: in a heap the write is
visible at every occurrence of that node, so the value model rewrites every
node with id `k`, both below `children` and inside template contents. -/
def mutateById (n : Node) (k : Nat) (m : Mutation) : Node :=
  match n with
  | .mk i p d cs => .mk i p (mutateData d i k m) (mutateList cs k m)

def mutateData (d : NodeData) (i k : Nat) (m : Mutation) : NodeData :=
  match d with
  | .element nm a tc mi =>
    let a1 := if i = k then (match m with | .setAttrs na => na | _ => a) else a
    .element nm a1 (mutateTc tc k m) mi
  | .text t =>
    if i = k then (match m with | .setText s => .text s | _ => .text t) else .text t
  | d => d

def mutateTc : Option Node → Nat → Mutation → Option Node
  | none, _, _ => none
  | some t, k, m => some (mutateById t k m)

def mutateList : List Node → Nat → Mutation → List Node
  | [], _, _ => []
  | c :: cs, k, m => mutateById c k m :: mutateList cs k m
end

/-- Observable data of a node for the independence statement: everything
except the template-contents handle (which `deep_copy` shares by design of
the embedding's counterexample). -/
def obsData : NodeData → NodeData
  | .element nm a _ mi => .element nm a none mi
  | d => d

mutual
/-- Observation of a child tree: the id and observable data of every node
reached through `children`, in pre-order. -/
def childObs : Node → List (Nat × NodeData)
  | .mk i _ d cs => (i, obsData d) :: childObsList cs

def childObsList : List Node → List (Nat × NodeData)
  | [] => []
  | c :: cs => childObs c ++ childObsList cs
end

/-! ## Selector engine (`selector.rs`) -/

/-- A parsed selector segment (`SelectorSegment`). -/
structure SelectorSegment where
  element : Option String
  classes : List String
  id : Option String
deriving DecidableEq

/-- The scanning state of `parse_selector_impl`: the fields being built, the
current token (in reverse), and the current mode (`'e'`, `'c'` or `'i'`). -/
structure PState where
  element : Option String
  classes : List String
  id : Option String
  tok : List Char
  ty : Char

/-- Flush on `'.'`: a non-empty token lands in the field of the current
mode. -/
def flushDot (st : PState) : PState :=
  if st.ty = 'e' ∧ st.tok ≠ [] then { st with element := some (String.mk st.tok.reverse) }
  else if st.ty = 'c' ∧ st.tok ≠ [] then
    { st with classes := st.classes ++ [String.mk st.tok.reverse] }
  else if st.ty = 'i' ∧ st.tok ≠ [] then { st with id := some (String.mk st.tok.reverse) }
  else st

/-- Flush on `'#'`: the source only flushes element and class tokens here (a
pending id token is discarded). -/
def flushHash (st : PState) : PState :=
  if st.ty = 'e' ∧ st.tok ≠ [] then { st with element := some (String.mk st.tok.reverse) }
  else if st.ty = 'c' ∧ st.tok ≠ [] then
    { st with classes := st.classes ++ [String.mk st.tok.reverse] }
  else st

def pstep (st : PState) (ch : Char) : PState :=
  if ch = '.' then { flushDot st with tok := [], ty := 'c' }
  else if ch = '#' then { flushHash st with tok := [], ty := 'i' }
  else { st with tok := ch :: st.tok }

/-- Handle the last token after the scan. -/
def pfinish (st : PState) : SelectorSegment :=
  if st.tok ≠ [] then
    if st.ty = 'e' then ⟨some (String.mk st.tok.reverse), st.classes, st.id⟩
    else if st.ty = 'c' then ⟨st.element, st.classes ++ [String.mk st.tok.reverse], st.id⟩
    else if st.ty = 'i' then ⟨st.element, st.classes, some (String.mk st.tok.reverse)⟩
    else ⟨st.element, st.classes, st.id⟩
  else ⟨st.element, st.classes, st.id⟩

def parseSegment (seg : String) : SelectorSegment :=
  pfinish (seg.data.foldl pstep ⟨none, [], none, [], 'e'⟩)

/-- `parse_selector_impl`: trim, split on whitespace, parse each segment. -/
def parse_selector_impl (selector : String) : List SelectorSegment :=
  (tokens (String.mk (trimRust selector.data))).map parseSegment

/-- `matches_segment`: only elements match; the element name (if given) must
equal the tag, an id (if given) must match an `id` attribute exactly, and
all segment classes must occur among the whitespace-split tokens of the
first `class` attribute. -/
def matches_segment (n : Node) (seg : SelectorSegment) : Bool :=
  match n.dataOf with
  | .element name attrs _ _ =>
    (match seg.element with
     | some e => name.loc = e
     | none => true) &&
    (match seg.id with
     | some rid => attrs.any (fun a => a.name.loc = "id" && a.value = rid)
     | none => true) &&
    (if !seg.classes.isEmpty then
      match attrs.find? (fun a => a.name.loc = "class") with
      | some ca => seg.classes.all (fun rc => (tokens ca.value).contains rc)
      | none => false
     else true)
  | _ => false

mutual
/-- `select_all_recursive`: if the node matches the current segment, either
record it (last segment) or search all children for the next segment; in
either case continue searching the children for the current segment. -/
def select_all_recursive (n : Node) (segments : List SelectorSegment) (idx : Nat)
    (results : List Node) : List Node :=
  match n with
  | .mk i p d cs =>
    if idx ≥ segments.length then results
    else
      let cur := segments.getD idx ⟨none, [], none⟩
      let results1 :=
        if matches_segment (.mk i p d cs) cur then
          if idx = segments.length - 1 then results ++ [Node.mk i p d cs]
          else selChildren cs segments (idx + 1) results
        else results
      selChildren cs segments idx results1

def selChildren (cs : List Node) (segments : List SelectorSegment) (idx : Nat)
    (results : List Node) : List Node :=
  match cs with
  | [] => results
  | c :: rest => selChildren rest segments idx (select_all_recursive c segments idx results)
end

/-- `select`: empty (after trim) or unparsable selectors yield `[]`. -/
def select (tree : Node) (selector : String) : List Node :=
  if (trimRust selector.data).isEmpty then []
  else
    let segments := parse_selector_impl selector
    if segments.isEmpty then []
    else select_all_recursive tree segments 0 []

mutual
/-- All element nodes of a tree in document pre-order (the reference for the
claim that an all-delimiter selector selects every element). -/
def elementsPre : Node → List Node
  | .mk i p d cs =>
    match d with
    | .element _ _ _ _ => Node.mk i p (d) cs :: elementsPreList cs
    | _ => elementsPreList cs

def elementsPreList : List Node → List Node
  | [] => []
  | c :: cs => elementsPre c ++ elementsPreList cs
end

/-! ## `get_selector` over an explicit heap

`get_selector` reads a node's parent cell with `Cell::take`, which leaves
`None` behind and is never restored, so the function mutates the tree.  To
express that, nodes live in a heap addressed by id. -/

/-- Heap cell: the mutable parent pointer and the node data. -/
structure SNode where
  parent : Option Nat
  data : NodeData

abbrev SHeap := List (Nat × SNode)

def slookup (h : SHeap) (i : Nat) : Option SNode :=
  (h.find? (fun e => e.1 = i)).map (·.2)

/-- `Cell::take` on the parent pointer of node `i`. -/
def setParentNone (h : SHeap) (i : Nat) : SHeap :=
  h.map (fun e => if e.1 = i then (e.1, ⟨none, e.2.data⟩) else e)

def countParents (h : SHeap) : Nat :=
  h.countP (fun e => e.2.parent.isSome)

/-- The `tag.class1.class2#id` string built by `get_selector` for one node:
the tag, then for every attribute in order a `.cls` per whitespace-split
class token of a `class` attribute and a `#value` for an `id` attribute. -/
def buildSel (name : QualName) (attrs : List Attr) : String :=
  attrs.foldl (fun sel a =>
    if a.name.loc = "class" then
      (tokens a.value).foldl (fun s c => s ++ "." ++ c) sel
    else if a.name.loc = "id" then sel ++ "#" ++ a.value
    else sel) name.loc

/-- `get_selector` body; each visited element's parent cell is emptied by
`take` before recursing, so the number of non-empty parent cells bounds the
recursion depth and `countParents h + 1` fuel always suffices. -/
def get_selector_go : Nat → SHeap → Nat → Option String × SHeap
  | 0, h, _ => (none, h)
  | fuel + 1, h, i =>
    match slookup h i with
    | none => (none, h)
    | some sn =>
      match sn.data with
      | .element name attrs _ _ =>
        let selfSel := buildSel name attrs
        let h1 := setParentNone h i
        match sn.parent with
        | some pid =>
          match slookup h1 pid with
          | some _ =>
            let r := get_selector_go fuel h1 pid
            (some (match r.1 with
                   | some ps => ps ++ " " ++ selfSel
                   | none => selfSel), r.2)
          | none => (some selfSel, h1)
        | none => (some selfSel, h1)
      | _ => (none, h)

/-- `get_selector(node)`: build `tag.classes#id` per ancestor from the root
down, joined by single spaces; `none` for non-element nodes.  The returned
heap records the parent cells emptied along the way. -/
def get_selector (h : SHeap) (i : Nat) : Option String × SHeap :=
  get_selector_go (countParents h + 1) h i

/-! ## Preprocessor (`preprocess.rs`) -/

/-- `preprocess_text`: trim; replace `&nbsp;`/newline/carriage-return/tab/
non-breaking-space by spaces; collapse double spaces until none remain;
trim again. -/
def preprocess_text (text : String) : String :=
  let r0 := trimRust text.data
  let r1 := replaceSub r0 "&nbsp;".data " ".data
  let r2 := replaceSub r1 ['\n'] [' ']
  let r3 := replaceSub r2 ['\r'] [' ']
  let r4 := replaceSub r3 ['\t'] [' ']
  let r5 := replaceSub r4 [' '] [' ']
  let r6 := dedupeGo r5.length r5
  String.mk (trimRust r6)

def INLINE_TAGS : List String :=
  ["b", "blockquote", "code", "em", "i", "small", "strike", "strong"]

def FORBIDDEN_TAGS : List String :=
  ["script", "noscript", "iframe", "object", "embed", "applet", "link", "meta", "style",
   "svg", "canvas", "audio", "video", "button", "nav", "header", "footer", "hr", "br"]

structure PreprocessConfig where
  remove_links : Bool
  remove_images : Bool
  remove_tables : Bool

/-- The `Default` impl: all three removal flags true. -/
def PreprocessConfig.default : PreprocessConfig := ⟨true, true, true⟩

/-- `Node::new_text` (a fresh text node; the id is irrelevant to
serialization). -/
def Node.new_text (s : String) : Node := .mk 0 none (.text s) []

/-- The single-child tag-collapse test: exactly one surviving child whose
element tag equals the current node's tag yields a deep copy of the child. -/
def collapseCandidate (nd : NodeData) (pcs : List Node) : Option Node :=
  match pcs with
  | [child] =>
    match nd, child.dataOf with
    | .element name _ _ _, .element cname _ _ _ =>
      if name.loc = cname.loc then some ((deep_copy child 0).1) else none
    | _, _ => none
  | _ => none

def isInline (nd : NodeData) : Bool :=
  match nd with
  | .element name _ _ _ => INLINE_TAGS.contains name.loc
  | _ => false

/-- Texts of the surviving text children (for inline flattening). -/
def textContents (pcs : List Node) : List String :=
  pcs.filterMap (fun c => match c.dataOf with | .text t => some t | _ => none)

/-- The tail of `preprocess_node` after the child loop: flush pending texts,
elide childless nodes, collapse single same-tag children, flatten all-text
inline elements, otherwise keep the node with the processed children
re-parented to it. -/
def finishNode (nid : Nat) (nd : NodeData) (r : List Node × List String × Bool) :
    Option Node :=
  let texts := r.2.1
  let only_text := r.2.2
  let pcs :=
    if !texts.isEmpty then
      r.1 ++ [Node.new_text (preprocess_text (String.intercalate " " texts))]
    else r.1
  if pcs.isEmpty then none
  else
    match collapseCandidate nd pcs with
    | some collapsed => some collapsed
    | none =>
      if only_text && isInline nd then
        some (Node.new_text (preprocess_text (String.intercalate " " (textContents pcs))))
      else
        some (.mk nid none nd (pcs.map (fun c => setParentTop c (some nid))))

mutual
/-- `Preprocessor::preprocess_node`: normalize text nodes (eliding empty
results), drop forbidden/configured tags, then process the children. -/
def preprocess_node (cfg : PreprocessConfig) (n : Node) : Option Node :=
  match n with
  | .mk nid _ nd ncs =>
    match nd with
    | .text t =>
      let processed := preprocess_text t
      if processed = "" then none else some (Node.new_text processed)
    | .element name attrs tc m =>
      if FORBIDDEN_TAGS.contains name.loc then none
      else if cfg.remove_links && name.loc = "a" then none
      else if cfg.remove_images && name.loc = "img" then none
      else if cfg.remove_tables && name.loc = "table" then none
      else finishNode nid (.element name attrs tc m) (processLoop cfg ncs [] [] true)
    | _ => finishNode nid nd (processLoop cfg ncs [] [] true)

/-- The child loop of `preprocess_node`: buffer consecutive surviving text
children; on a non-text survivor flush the buffer as one normalized text
node and clear the all-text flag. -/
def processLoop (cfg : PreprocessConfig) (cs : List Node) (acc : List Node)
    (texts : List String) (only_text : Bool) : List Node × List String × Bool :=
  match cs with
  | [] => (acc, texts, only_text)
  | c :: rest =>
    match preprocess_node cfg c with
    | none => processLoop cfg rest acc texts only_text
    | some pc =>
      match pc.dataOf with
      | .text t => processLoop cfg rest acc (texts ++ [t]) only_text
      | _ =>
        let acc1 :=
          if !texts.isEmpty then
            acc ++ [Node.new_text (preprocess_text (String.intercalate " " texts))]
          else acc
        processLoop cfg rest (acc1 ++ [pc]) [] false
end

/-! ## Serialization

Modelled from the spec: the html5ever serializer (an external collaborator)
emits open tag, children, close tag for elements, attributes in declared
order, escaped text for leaves, and is invoked on the document with
children-only traversal scope; a document node in any other position is an
error.  Escaping follows the standard markup grammar (`&`, `<`, `>`, the
non-breaking space, and `"` inside attribute values). -/

def escChar (quoteMode : Bool) (c : Char) : List Char :=
  if c = '&' then "&amp;".data
  else if c = ' ' then "&nbsp;".data
  else if quoteMode ∧ c = '"' then "&quot;".data
  else if ¬ quoteMode ∧ c = '<' then "&lt;".data
  else if ¬ quoteMode ∧ c = '>' then "&gt;".data
  else [c]

def escapeStr (quoteMode : Bool) (s : String) : String :=
  String.mk (s.data.foldr (fun c acc => escChar quoteMode c ++ acc) [])

def attrsStr (attrs : List Attr) : String :=
  attrs.foldl (fun acc a => acc ++ " " ++ a.name.loc ++ "=\"" ++ escapeStr true a.value ++ "\"") ""

mutual
/-- Modelled from the spec: serialize one node (see section comment). -/
def serializeNode : Node → Option String
  | .mk _ _ (.element name attrs _ _) cs =>
    (serializeList cs).map (fun body =>
      "<" ++ name.loc ++ attrsStr attrs ++ ">" ++ body ++ "</" ++ name.loc ++ ">")
  | .mk _ _ (.text t) _ => some (escapeStr false t)
  | .mk _ _ (.comment c) _ => some ("<!--" ++ c ++ "-->")
  | .mk _ _ (.doctype n _ _) _ => some ("<!DOCTYPE " ++ n ++ ">")
  | .mk _ _ (.processingInstruction t d) _ => some ("<?" ++ t ++ " " ++ d ++ ">")
  | .mk _ _ .document _ => none

def serializeList : List Node → Option String
  | [] => some ""
  | c :: cs => do
    let s ← serializeNode c
    let rest ← serializeList cs
    pure (s ++ rest)
end

/-- `serialize_to_string` with the default children-only traversal scope. -/
def serialize_to_string (n : Node) : Option String := serializeList n.childrenOf

/-- `Preprocessor::preprocess_html` after parsing: process the document tree
and serialize, or return the empty string.  Parsing itself is performed by
the external html5ever collaborator, so this function takes the parsed tree
as input. -/
def preprocess_html_of_tree (cfg : PreprocessConfig) (docTree : Node) : String :=
  match preprocess_node cfg docTree with
  | some processed => (serialize_to_string processed).getD ""
  | none => ""

/-! ## Auxiliary observers -/

/-- Is the node an element? -/
def isElementB (n : Node) : Bool :=
  match n.dataOf with
  | .element _ _ _ _ => true
  | _ => false

/-- Local tag name of an element node (empty for non-elements). -/
def elementLoc (n : Node) : String :=
  match n.dataOf with
  | .element q _ _ _ => q.loc
  | _ => ""

/-- The segment produced by an all-delimiter selector: no element, no
classes, no id. -/
def emptySegment : SelectorSegment := ⟨none, [], none⟩

/-- Id of the root of a template element's contents (if any). -/
def tcRootId (n : Node) : Option Nat :=
  match n.dataOf with
  | .element _ _ (some t) _ => some t.idOf
  | _ => none

/-- Full text of a template element's contents (if any). -/
def tmplTextOf (n : Node) : Option String :=
  match n.dataOf with
  | .element _ _ (some t) _ => some (fullText t)
  | _ => none

/-! ## Concrete inputs -/

def divName : QualName := ⟨"", "div"⟩
def pName : QualName := ⟨"", "p"⟩
def spanName : QualName := ⟨"", "span"⟩
def bName : QualName := ⟨"", "b"⟩
def emName : QualName := ⟨"", "em"⟩
def htmlName : QualName := ⟨"", "html"⟩
def headName : QualName := ⟨"", "head"⟩
def bodyName : QualName := ⟨"", "body"⟩
def aName : QualName := ⟨"", "a"⟩
def imgName : QualName := ⟨"", "img"⟩
def tmplName : QualName := ⟨"", "template"⟩

def clsAttr (v : String) : Attr := ⟨⟨"", "class"⟩, v⟩
def idAttr (v : String) : Attr := ⟨⟨"", "id"⟩, v⟩

/-- A `div` with two text children `"a"` and `"a"` (for C1: the extractor
selects both children, merges them into the parent, and the joined text of
the result is `"a a"`, not the target `"a"`). -/
def t1a : Node := .mk 1 (some 0) (.text "a") []
def t1b : Node := .mk 2 (some 0) (.text "a") []
def root1 : Node := .mk 0 none (.element divName [] none false) [t1a, t1b]

/-- A tree with two data-equal `div` children with different texts (for C3:
the memo cache keys by node data, so the second child's text collides with
the first's). -/
def tA : Node := .mk 2 (some 1) (.text "a") []
def nA : Node := .mk 1 (some 0) (.element divName [] none false) [tA]
def tB : Node := .mk 4 (some 3) (.text "b") []
def nB : Node := .mk 3 (some 0) (.element divName [] none false) [tB]
def rootC : Node := .mk 0 none (.element divName [] none false) [nA, nB]

/-- A `div` containing the text `"a"` (for C4: a `build` call whose subset
guard fails returns early without clearing the cache). -/
def tree4 : Node := .mk 0 none (.element divName [] none false)
  [.mk 1 (some 0) (.text "a") []]

/-- The example tree of the repository's own extractor test:
`div > [p > [span > ["Hello", b > "world"], "from"], div > ["the", em > ["test", "tree"]]]`. -/
def helloT : Node := .mk 3 (some 2) (.text "Hello") []
def worldT : Node := .mk 5 (some 4) (.text "world") []
def bElem : Node := .mk 4 (some 2) (.element bName [] none false) [worldT]
def spanElem : Node := .mk 2 (some 1) (.element spanName [] none false) [helloT, bElem]
def fromT : Node := .mk 6 (some 1) (.text "from") []
def pElem : Node := .mk 1 (some 0) (.element pName [] none false) [spanElem, fromT]
def theT : Node := .mk 8 (some 7) (.text "the") []
def testT : Node := .mk 10 (some 9) (.text "test") []
def treeT : Node := .mk 11 (some 9) (.text "tree") []
def emElem : Node := .mk 9 (some 7) (.element emName [] none false) [testT, treeT]
def div2Elem : Node := .mk 7 (some 0) (.element divName [] none false) [theT, emElem]
def rootElem : Node := .mk 0 none (.element divName [] none false) [pElem, div2Elem]

/-- Heap with a `div` parent (id 0) and a `span` child (id 1), for the
`get_selector` mutation observation. -/
def c5heap : SHeap :=
  [(0, ⟨none, .element divName [] none false⟩),
   (1, ⟨some 0, .element spanName [] none false⟩)]

/-- A template element whose contents document holds the text `"x"` (for the
C6 template-contents sharing observation). -/
def cexTcText : Node := .mk 2 (some 1) (.text "x") []
def cexTcDoc : Node := .mk 1 none .document [cexTcText]
def cexTmpl : Node := .mk 0 none (.element tmplName [] (some cexTcDoc) false) []

/-- Modelled from the spec: the tree produced by the external html5ever
parser (see section 4.2 of the spec, "Top-level entry: parse ...") for the
input markup
`<div><p>Text with <a href='x'>link</a></p><img src='y'/></div>` — standard
HTML parsing wraps the content in `html > [head, body]`. -/
def c7text : Node := .mk 6 (some 5) (.text "Text with ") []
def c7link : Node := .mk 8 (some 7) (.text "link") []
def c7a : Node := .mk 7 (some 5) (.element aName [⟨⟨"", "href"⟩, "x"⟩] none false) [c7link]
def c7p : Node := .mk 5 (some 4) (.element pName [] none false) [c7text, c7a]
def c7img : Node := .mk 9 (some 4) (.element imgName [⟨⟨"", "src"⟩, "y"⟩] none false) []
def c7div : Node := .mk 4 (some 3) (.element divName [] none false) [c7p, c7img]
def c7body : Node := .mk 3 (some 1) (.element bodyName [] none false) [c7div]
def c7head : Node := .mk 2 (some 1) (.element headName [] none false) []
def c7html : Node := .mk 1 (some 0) (.element htmlName [] none false) [c7head, c7body]
def c7doc : Node := .mk 0 none .document [c7html]

/-- The selector test tree:
`div#root.container > [span.item, div.item.active > p, span.item]`. -/
def c9span1 : Node := .mk 1 (some 0) (.element spanName [clsAttr "item"] none false) []
def c9p : Node := .mk 3 (some 2) (.element pName [] none false) []
def c9div1 : Node := .mk 2 (some 0) (.element divName [clsAttr "item active"] none false) [c9p]
def c9span2 : Node := .mk 4 (some 0) (.element spanName [clsAttr "item"] none false) []
def c9root : Node := .mk 0 none
  (.element divName [clsAttr "container", idAttr "root"] none false)
  [c9span1, c9div1, c9span2]

/-! ## Helper lemmas -/

theorem subsetLoop_iff_sublist (l1 l2 : List String) :
    subsetLoop l1 l2 = true ↔ l1.Sublist l2 := by
  induction l2 generalizing l1 with
  | nil =>
    cases l1 with
    | nil => simp [subsetLoop]
    | cons a as_ => simp [subsetLoop]
  | cons b bs ih =>
    cases l1 with
    | nil => simp [subsetLoop]
    | cons a as_ =>
      by_cases hab : a = b
      · subst hab
        rw [subsetLoop, if_pos rfl, ih]
        exact (List.cons_sublist_cons).symm
      · rw [subsetLoop, if_neg hab, ih]
        constructor
        · intro h; exact h.cons b
        · intro h
          cases h with
          | cons _ h' => exact h'
          | cons₂ => exact absurd rfl hab

theorem childIds_setParentTop (n : Node) (p : Option Nat) :
    childIds (setParentTop n p) = childIds n := by
  cases n with
  | mk i q d cs => rfl

theorem stripIds_setParentTop (n : Node) (p : Option Nat) :
    stripIds (setParentTop n p) = stripIds n := by
  cases n with
  | mk i q d cs => rfl

mutual
theorem deep_copy_ids (n : Node) (ctr : Nat) :
    (∀ i ∈ childIds ((deep_copy n ctr).1), ctr ≤ i) ∧ ctr + 1 ≤ (deep_copy n ctr).2 := by
  cases n with
  | mk i p d cs =>
    have hl := deepCopyChildren_ids cs (ctr + 1) ctr
    refine ⟨?_, ?_⟩
    · intro j hj
      have hj' : j ∈ ctr :: childIdsList ((deepCopyChildren cs (ctr + 1) ctr).1) := hj
      rcases List.mem_cons.mp hj' with h | h
      · omega
      · have := hl.1 j h
        omega
    · show ctr + 1 ≤ (deepCopyChildren cs (ctr + 1) ctr).2
      have := hl.2
      omega

theorem deepCopyChildren_ids (cs : List Node) (ctr pid : Nat) :
    (∀ i ∈ childIdsList ((deepCopyChildren cs ctr pid).1), ctr ≤ i) ∧
      ctr ≤ (deepCopyChildren cs ctr pid).2 := by
  cases cs with
  | nil =>
    refine ⟨?_, le_refl ctr⟩
    intro j hj
    exact absurd hj (by intro h; cases h)
  | cons c rest =>
    have h1 := deep_copy_ids c ctr
    have h2 := deepCopyChildren_ids rest ((deep_copy c ctr).2) pid
    refine ⟨?_, ?_⟩
    · intro j hj
      have hj' : j ∈ childIds (setParentTop ((deep_copy c ctr).1) (some pid)) ++
          childIdsList ((deepCopyChildren rest ((deep_copy c ctr).2) pid).1) := hj
      rw [childIds_setParentTop] at hj'
      rcases List.mem_append.mp hj' with h | h
      · exact h1.1 j h
      · have := h2.1 j h
        have := h1.2
        omega
    · show ctr ≤ (deepCopyChildren rest ((deep_copy c ctr).2) pid).2
      have := h2.2
      have := h1.2
      omega
end

theorem obsData_mutateData (d : NodeData) (i k : Nat) (m : Mutation) (h : i ≠ k) :
    obsData (mutateData d i k m) = obsData d := by
  cases d with
  | element nm a tc mi => simp [mutateData, obsData, h]
  | text t => simp [mutateData, obsData, h]
  | document => rfl
  | doctype a b c => rfl
  | comment c => rfl
  | processingInstruction a b => rfl

mutual
theorem mutate_childObs (n : Node) (k : Nat) (m : Mutation) (h : k ∉ childIds n) :
    childObs (mutateById n k m) = childObs n := by
  cases n with
  | mk i p d cs =>
    have h' : ¬ (k = i ∨ k ∈ childIdsList cs) := fun hor => h (List.mem_cons.mpr hor)
    push_neg at h'
    show (i, obsData (mutateData d i k m)) :: childObsList (mutateList cs k m) =
      (i, obsData d) :: childObsList cs
    rw [obsData_mutateData d i k m (fun he => h'.1 he.symm),
        mutate_childObsList cs k m h'.2]

theorem mutate_childObsList (cs : List Node) (k : Nat) (m : Mutation)
    (h : k ∉ childIdsList cs) : childObsList (mutateList cs k m) = childObsList cs := by
  cases cs with
  | nil => rfl
  | cons c rest =>
    have h' : ¬ (k ∈ childIds c ∨ k ∈ childIdsList rest) := fun hor => by
      cases hor with
      | inl hh => exact h (by
          show k ∈ childIds c ++ childIdsList rest
          exact List.mem_append.mpr (Or.inl hh))
      | inr hh => exact h (by
          show k ∈ childIds c ++ childIdsList rest
          exact List.mem_append.mpr (Or.inr hh))
    push_neg at h'
    show childObs (mutateById c k m) ++ childObsList (mutateList rest k m) =
      childObs c ++ childObsList rest
    rw [mutate_childObs c k m h'.1, mutate_childObsList rest k m h'.2]
end

mutual
theorem deep_copy_strip (n : Node) (ctr : Nat) :
    stripIds ((deep_copy n ctr).1) = stripIds n := by
  cases n with
  | mk i p d cs =>
    show Node.mk 0 none d (stripList ((deepCopyChildren cs (ctr + 1) ctr).1)) = _
    rw [deep_copy_strip_list cs (ctr + 1) ctr]
    rfl

theorem deep_copy_strip_list (cs : List Node) (ctr pid : Nat) :
    stripList ((deepCopyChildren cs ctr pid).1) = stripList cs := by
  cases cs with
  | nil => rfl
  | cons c rest =>
    show stripIds (setParentTop ((deep_copy c ctr).1) (some pid)) ::
        stripList ((deepCopyChildren rest ((deep_copy c ctr).2) pid).1) = _
    rw [stripIds_setParentTop, deep_copy_strip c ctr,
        deep_copy_strip_list rest ((deep_copy c ctr).2) pid]
    rfl
end

theorem deep_copy_parent_none (n : Node) (ctr : Nat) :
    ((deep_copy n ctr).1).parentOf = none := by
  cases n with
  | mk i p d cs => rfl

theorem tokenizeAux_no_ws (cs : List Char) (acc : List Char)
    (h : ∀ c ∈ cs, isWs c = false) (hne : acc ≠ [] ∨ cs ≠ []) :
    tokenizeAux cs acc = [String.mk (acc.reverse ++ cs)] := by
  induction cs generalizing acc with
  | nil =>
    rcases hne with h1 | h1
    · simp [tokenizeAux, h1]
    · exact absurd rfl h1
  | cons c rest ih =>
    have hc : isWs c = false := h c (List.mem_cons_self c rest)
    have hrest : ∀ x ∈ rest, isWs x = false := fun x hx => h x (List.mem_cons_of_mem c hx)
    show tokenizeAux (c :: rest) acc = _
    rw [tokenizeAux]
    rw [hc]
    simp only [Bool.false_eq_true, if_false]
    rw [ih (c :: acc) hrest (Or.inl (by simp))]
    simp

theorem tokens_no_ws (s : String) (h1 : s.data ≠ [])
    (h2 : ∀ c ∈ s.data, isWs c = false) : tokens s = [s] := by
  show tokenizeAux s.data [] = [s]
  rw [tokenizeAux_no_ws s.data [] h2 (Or.inr h1)]
  cases s with
  | mk data => simp

theorem dropWhile_no_ws (cs : List Char) (h : ∀ c ∈ cs, isWs c = false) :
    cs.dropWhile (isWs ·) = cs := by
  cases cs with
  | nil => rfl
  | cons c rest =>
    rw [List.dropWhile_cons]
    simp [h c (List.mem_cons_self c rest)]

theorem trimRust_no_ws (cs : List Char) (h : ∀ c ∈ cs, isWs c = false) :
    trimRust cs = cs := by
  unfold trimRust
  rw [dropWhile_no_ws cs h]
  rw [dropWhile_no_ws cs.reverse (fun c hc => h c (List.mem_reverse.mp hc))]
  simp

theorem foldl_pstep_delims (cs : List Char) (st : PState)
    (h : ∀ c ∈ cs, c = '.' ∨ c = '#')
    (he : st.element = none) (hc : st.classes = []) (hi : st.id = none) (ht : st.tok = []) :
    (cs.foldl pstep st).element = none ∧ (cs.foldl pstep st).classes = [] ∧
    (cs.foldl pstep st).id = none ∧ (cs.foldl pstep st).tok = [] := by
  induction cs generalizing st with
  | nil => exact ⟨he, hc, hi, ht⟩
  | cons c rest ih =>
    have hcr : ∀ x ∈ rest, x = '.' ∨ x = '#' := fun x hx => h x (List.mem_cons_of_mem c hx)
    rw [List.foldl_cons]
    rcases h c (List.mem_cons_self c rest) with hdot | hhash
    · subst hdot
      have hst : pstep st '.' = { flushDot st with tok := [], ty := 'c' } := by
        simp [pstep]
      have hfd : flushDot st = st := by
        simp [flushDot, ht]
      rw [hst, hfd]
      exact ih _ hcr he hc hi rfl
    · subst hhash
      have hst : pstep st '#' = { flushHash st with tok := [], ty := 'i' } := by
        simp [pstep]
      have hfd : flushHash st = st := by
        simp [flushHash, ht]
      rw [hst, hfd]
      exact ih _ hcr he hc hi rfl

theorem parseSegment_delims (s : String) (h : ∀ c ∈ s.data, c = '.' ∨ c = '#') :
    parseSegment s = emptySegment := by
  unfold parseSegment
  have hst := foldl_pstep_delims s.data ⟨none, [], none, [], 'e'⟩ h rfl rfl rfl rfl
  unfold pfinish
  rw [hst.2.2.2]
  simp [hst.1, hst.2.1, hst.2.2.1, emptySegment]

theorem parse_selector_impl_delims (s : String) (h1 : s.data ≠ [])
    (h2 : ∀ c ∈ s.data, c = '.' ∨ c = '#') :
    parse_selector_impl s = [emptySegment] := by
  have hnws : ∀ c ∈ s.data, isWs c = false := by
    intro c hc
    rcases h2 c hc with h | h <;> subst h <;> rfl
  unfold parse_selector_impl
  rw [trimRust_no_ws s.data hnws]
  rw [tokens_no_ws (String.mk s.data) h1 hnws]
  rw [List.map_cons, List.map_nil]
  rw [parseSegment_delims (String.mk s.data) h2]

theorem matches_segment_empty (n : Node) :
    matches_segment n emptySegment = isElementB n := by
  cases n with
  | mk i p d cs =>
    cases d with
    | element nm a tc mi => rfl
    | document => rfl
    | doctype a b c => rfl
    | text t => rfl
    | comment c => rfl
    | processingInstruction a b => rfl

mutual
theorem selRec_emptySegment (n : Node) (res : List Node) :
    select_all_recursive n [emptySegment] 0 res = res ++ elementsPre n := by
  cases n with
  | mk i p d cs =>
    show (if (0 : Nat) ≥ 1 then res
      else
        let cur := [emptySegment].getD 0 ⟨none, [], none⟩
        let results1 :=
          if matches_segment (.mk i p d cs) cur then
            if 0 = 1 - 1 then res ++ [Node.mk i p d cs]
            else selChildren cs [emptySegment] (0 + 1) res
          else res
        selChildren cs [emptySegment] 0 results1) = res ++ elementsPre (.mk i p d cs)
    rw [if_neg (by omega)]
    show selChildren cs [emptySegment] 0
      (if matches_segment (.mk i p d cs) emptySegment then res ++ [Node.mk i p d cs] else res) =
      res ++ elementsPre (.mk i p d cs)
    rw [matches_segment_empty]
    cases hd : isElementB (.mk i p d cs) with
    | true =>
      rw [if_pos rfl]
      rw [selChildren_emptySegment cs (res ++ [Node.mk i p d cs])]
      have he : elementsPre (.mk i p d cs) = Node.mk i p d cs :: elementsPreList cs := by
        cases d with
        | element nm a tc mi => rfl
        | document => exact absurd hd (by simp [isElementB, Node.dataOf])
        | doctype a b c => exact absurd hd (by simp [isElementB, Node.dataOf])
        | text t => exact absurd hd (by simp [isElementB, Node.dataOf])
        | comment c => exact absurd hd (by simp [isElementB, Node.dataOf])
        | processingInstruction a b => exact absurd hd (by simp [isElementB, Node.dataOf])
      rw [he]
      simp

    | false =>
      rw [if_neg (by simp)]
      rw [selChildren_emptySegment cs res]
      have he : elementsPre (.mk i p d cs) = elementsPreList cs := by
        cases d with
        | element nm a tc mi => exact absurd hd (by simp [isElementB, Node.dataOf])
        | document => rfl
        | doctype a b c => rfl
        | text t => rfl
        | comment c => rfl
        | processingInstruction a b => rfl
      rw [he]

theorem selChildren_emptySegment (cs : List Node) (res : List Node) :
    selChildren cs [emptySegment] 0 res = res ++ elementsPreList cs := by
  cases cs with
  | nil => simp [selChildren, elementsPreList]
  | cons c rest =>
    show selChildren rest [emptySegment] 0 (select_all_recursive c [emptySegment] 0 res) =
      res ++ elementsPreList (c :: rest)
    rw [selRec_emptySegment c res, selChildren_emptySegment rest (res ++ elementsPre c)]
    show res ++ elementsPre c ++ elementsPreList rest =
      res ++ (elementsPre c ++ elementsPreList rest)
    simp
end

theorem select_dot (tree : Node) : select tree "." = elementsPre tree := by
  have h : select tree "." = select_all_recursive tree [emptySegment] 0 [] := rfl
  rw [h, selRec_emptySegment]
  simp

/-! ## Claim theorems -/

/-- C1, counterexample: for the tree `div > ["a", "a"]` and the non-empty
target `"a"`, whose token list is a subsequence of the tree's full-text
tokens `["a", "a"]`, `build` returns `some` — but the list is `[root]` and
the space-join of the returned nodes' texts is `"a a"`, not the target
text.  (Each text child is individually a token-subsequence of the target,
both get selected, and the merge step replaces them by their parent.)  So
the claim's exactness statement fails. -/
theorem C1_counterexample :
    "a" ≠ "" ∧ (tokens "a").Sublist (tokens (fullText root1)) ∧
    ((build [] root1 "a").1).isSome = true ∧
    ((((build [] root1 "a").1).getD []).map fullText) = ["a a"] ∧
    String.intercalate " " ((((build [] root1 "a").1).getD []).map fullText) ≠ "a" :=
  ⟨by decide, by decide, by decide, by decide, by decide⟩

/-- C1, amended: on the repository's example tree
`div > [p > [span > ["Hello", b > "world"], "from"], div > ["the", em > ["test", "tree"]]]`
with the non-empty target `"Hello world from test tree"` (a true
token-subsequence of the tree's full text), `build` returns `some [p, em]`
and the space-join of the returned nodes' texts equals the target text
exactly. -/
theorem C1_amended_reference_tree :
    "Hello world from test tree" ≠ "" ∧
    (tokens "Hello world from test tree").Sublist (tokens (fullText rootElem)) ∧
    ((build [] rootElem "Hello world from test tree").1).map (List.map Node.idOf) =
      some [1, 9] ∧
    String.intercalate " "
      ((((build [] rootElem "Hello world from test tree").1).getD []).map fullText) =
      "Hello world from test tree" :=
  ⟨by decide, by decide, by decide, by decide⟩

/-- C2: `is_subset(t1, t2)` returns true iff the whitespace tokens of `t1`
are a (not necessarily contiguous) subsequence of the whitespace tokens of
`t2`, in order; in particular
`is_subset("Hello test tree", "Hello world from test tree")` is true and
`is_subset("tree Hello", "Hello world tree")` is false. -/
theorem C2_is_subset_iff_subsequence :
    (∀ t1 t2 : String, is_subset t1 t2 = true ↔ (tokens t1).Sublist (tokens t2)) ∧
    is_subset "Hello test tree" "Hello world from test tree" = true ∧
    is_subset "tree Hello" "Hello world tree" = false :=
  ⟨fun t1 t2 => subsetLoop_iff_sublist (tokens t1) (tokens t2), by decide, by decide⟩

/-- C2, witness: the equivalence applied at concrete strings. -/
theorem C2_witness :
    is_subset "Hello test tree" "Hello world from test tree" = true ∧
    (tokens "Hello test tree").Sublist (tokens "Hello world from test tree") :=
  ⟨C2_is_subset_iff_subsequence.2.1,
   (C2_is_subset_iff_subsequence.1 "Hello test tree" "Hello world from test tree").mp
     (by decide)⟩

/-- C3, counterexample: `rootC` is `div > [div > "a", div > "b"]`; the two
inner `div`s have equal data, so the memo cache (keyed by node data)
collides and `get_text` reports `"a a"` for the whole tree instead of the
true full text `"a b"`.  The target `"a a"` is not a token-subsequence of
the tree's full text, yet `build` returns `some` rather than `none`. -/
theorem C3_counterexample :
    ¬ (tokens "a a").Sublist (tokens (fullText rootC)) ∧
    ((build [] rootC "a a").1).isSome = true :=
  ⟨by decide, by decide⟩

/-- C3, amended: `build(tree, text)` (with a fresh extractor) returns `none`
whenever `text` is the empty string, and whenever `text`'s tokens are not a
subsequence of the tokens of the *memoized* text `get_text(tree)` — which
can differ from the recursive full text when distinct nodes share equal
data. -/
theorem C3_amended_build_guard (tree : Node) (text : String)
    (h : text = "" ∨ is_subset text (get_text [] tree).1 = false) :
    (build [] tree text).1 = none := by
  rcases h with h | h
  · simp [build, h]
  · by_cases he : text = ""
    · simp [build, he]
    · simp [build, he, h]

/-- C3, witness: the guard theorem applied at the empty text and at a text
that is not a token-subsequence of the memoized tree text. -/
theorem C3_witness :
    (build [] rootC "").1 = none ∧ (build [] rootC "zzz").1 = none :=
  ⟨C3_amended_build_guard rootC "" (Or.inl rfl),
   C3_amended_build_guard rootC "zzz" (Or.inr (by decide))⟩

/-- C4: `build(tree4, "b")` fails the subset guard and returns `none` via
the early-return path, which skips `cache.clear()` — the memo cache still
holds the entry written by the guard's `get_text` call, so the cache is not
empty after this top-level `build` call. -/
theorem C4_cache_left_nonempty :
    ((build [] tree4 "b").1).isNone = true ∧ ((build [] tree4 "b").2).length = 1 :=
  ⟨by decide, by decide⟩

/-- C5: `get_selector` reads each visited node's parent cell with
`Cell::take` and never restores it.  On a heap with `div` (id 0) parenting
`span` (id 1), `get_selector(span)` returns the correct selector
`"div span"` but leaves the span's parent back-reference cleared — the
tree is not unchanged, contradicting the read-only claim. -/
theorem C5_get_selector_mutates_parent :
    (get_selector c5heap 1).1 = some "div span" ∧
    (slookup c5heap 1).map SNode.parent = some (some 0) ∧
    (slookup ((get_selector c5heap 1).2) 1).map SNode.parent = some none :=
  ⟨by decide, by decide, by decide⟩

/-- C6, counterexample: `deep_copy` clones the template-contents handle
(`template_contents.borrow().clone()` is an `Rc` clone), so the copy shares
the original's template-contents subtree: copying `cexTmpl` (ids 0,1,2)
with fresh ids from 10 yields a copy whose template-contents root still has
id 1, and writing the text `"y"` through that shared handle (node id 2) is
visible in the template contents of the copy *and* of the original. -/
theorem C6_counterexample :
    tcRootId ((deep_copy cexTmpl 10).1) = some 1 ∧
    tcRootId cexTmpl = some 1 ∧
    (childIds cexTmpl).all (fun i => i < 10) = true ∧
    tmplTextOf (mutateById ((deep_copy cexTmpl 10).1) 2 (.setText "y")) = some "y" ∧
    tmplTextOf (mutateById cexTmpl 2 (.setText "y")) = some "y" ∧
    tmplTextOf cexTmpl = some "x" :=
  ⟨by decide, by decide, by decide, by decide, by decide, by decide⟩

/-- C6, amended: for every node and every fresh id supply, `deep_copy`
returns a copy whose parent reference is empty, which is a clone of the
source (equal after erasing ids and parent pointers; the template-contents
handle is cloned shared), whose child-descendant ids are all fresh; and
mutating attributes or text through a handle of the original's
child-descendants never changes the observable child tree of the copy, and
vice versa.  (Independence through template contents does *not* hold — see
the counterexample.) -/
theorem C6_amended_deep_copy (n : Node) (ctr : Nat)
    (hfresh : ∀ i ∈ childIds n, i < ctr) :
    ((deep_copy n ctr).1).parentOf = none ∧
    stripIds ((deep_copy n ctr).1) = stripIds n ∧
    (∀ i ∈ childIds ((deep_copy n ctr).1), ctr ≤ i) ∧
    (∀ (k : Nat) (m : Mutation), k ∈ childIds n →
      childObs (mutateById ((deep_copy n ctr).1) k m) = childObs ((deep_copy n ctr).1)) ∧
    (∀ (k : Nat) (m : Mutation), ctr ≤ k → childObs (mutateById n k m) = childObs n) := by
  refine ⟨deep_copy_parent_none n ctr, deep_copy_strip n ctr, (deep_copy_ids n ctr).1, ?_, ?_⟩
  · intro k m hk
    apply mutate_childObs
    intro hmem
    have hge := (deep_copy_ids n ctr).1 k hmem
    have hlt := hfresh k hk
    omega
  · intro k m hk
    apply mutate_childObs
    intro hmem
    have := hfresh k hmem
    omega

/-- C6, witness: the amended theorem applied to the tree `div > ["a", "a"]`
with fresh ids from 10, including an instantiated independence conjunct. -/
theorem C6_witness :
    ((deep_copy root1 10).1).parentOf = none ∧
    stripIds ((deep_copy root1 10).1) = stripIds root1 ∧
    childObs (mutateById root1 10 (.setText "z")) = childObs root1 :=
  ⟨(C6_amended_deep_copy root1 10 (by decide)).1,
   (C6_amended_deep_copy root1 10 (by decide)).2.1,
   (C6_amended_deep_copy root1 10 (by decide)).2.2.2.2 10 (.setText "z") (by decide)⟩

/-- C7: preprocessing the parse tree of
`<div><p>Text with <a href='x'>link</a></p><img src='y'/></div>` with the
default configuration (remove_links = remove_images = remove_tables = true)
yields exactly `<html><body><div><p>Text with</p></div></body></html>`:
the link and image are removed, the trailing space of `"Text with "` is
trimmed, and the empty `head` is elided. -/
theorem C7_preprocess_scenario :
    preprocess_html_of_tree PreprocessConfig.default c7doc =
      "<html><body><div><p>Text with</p></div></body></html>" := by decide

/-- C9, counterexample: on the tree
`div#root.container > [span.item, div.item.active > p, span.item]` the
query `select(tree, "div p")` does not return exactly the single `p` node:
the traversal finds `p` once from the root's match of `"div"` and once more
from the inner `div`'s match, returning the node twice. -/
theorem C9_counterexample :
    (select c9root "div p").map Node.idOf = [3, 3] ∧
    (select c9root "div p").length = 2 :=
  ⟨by decide, by decide⟩

/-- C9, amended: `select(tree, ".item")` returns exactly the three `.item`
nodes in document pre-order (first span, inner div, second span);
`select(tree, "div p")` returns the single `p` node *twice* (the
overlapping descendant search reaches it from both matching `div`s). -/
theorem C9_amended_scenarios :
    (select c9root ".item").map Node.idOf = [1, 2, 4] ∧
    (select c9root ".item").map elementLoc = ["span", "div", "span"] ∧
    (select c9root "div p").map Node.idOf = [3, 3] ∧
    (select c9root "div p").map elementLoc = ["p", "p"] :=
  ⟨by decide, by decide, by decide, by decide⟩

/-- C10: a non-empty selector consisting only of the delimiter characters
`.` and `#` parses to a single segment with no element name, classes or id;
such a segment matches exactly the element nodes; hence for every tree,
`select(tree, ".")` returns every element node of the tree in document
pre-order. -/
theorem C10_all_delimiter_selector :
    (∀ s : String, s.data ≠ [] → (∀ c ∈ s.data, c = '.' ∨ c = '#') →
      parse_selector_impl s = [emptySegment]) ∧
    (∀ n : Node, matches_segment n emptySegment = isElementB n) ∧
    (∀ tree : Node, select tree "." = elementsPre tree) :=
  ⟨parse_selector_impl_delims, matches_segment_empty, select_dot⟩

/-- C10, witness: the three parts applied at the selector `".#"`, the node
`c9p`, and the selector-test tree. -/
theorem C10_witness :
    parse_selector_impl ".#" = [emptySegment] ∧
    matches_segment c9p emptySegment = true ∧
    select c9root "." = elementsPre c9root :=
  ⟨C10_all_delimiter_selector.1 ".#" (by decide) (by decide),
   (C10_all_delimiter_selector.2.1 c9p).trans (by decide),
   C10_all_delimiter_selector.2.2 c9root⟩
